import Mathlib

/-!
# Verification of the CellProfiler batch-partitioning and headless-run frontend

Shallow embedding of the partitioning / inspection / headless-orchestration
logic of `src/frontend/cellprofiler/__main__.py`:

* `get_batch_commands`      — the legacy batch partitioner (lines 764–831),
* `get_batch_commands_new`  — the current-policy partitioner (lines 833–878),
* `print_groups`            — the grouping inspector (lines 739–761),
* `run_pipeline_headless`   — headless-run orchestration (lines 905–1050),
* the `--images-per-batch` handling in `main` (lines 217–235).

The measurement store (`cellprofiler_core.measurement.Measurements`) is an
external collaborator: it is modelled as a record of the queries this file
makes against it (`get_image_numbers`, `has_feature(IMAGE, GROUP_NUMBER)`
together with the fetched `GroupNumber`/`GroupIndex` columns,
`get_grouping_tags_or_metadata`, `get_grouping_tags_only`, `get_groupings`).
The pipeline engine (`pipeline.run`) is opaque; it is modelled by the
resulting measurements' experiment-level `EXIT_STATUS` feature.
-/

set_option maxRecDepth 4000

namespace CPFrontend

/-- A numpy integer as stored in a measurement store (`np.int64`).  Kept as a
distinct wrapper because `print_groups` must coerce these with `int(...)`
before JSON serialization. -/
structure NpInt64 where
  val : Int
  deriving Repr, DecidableEq

/-- The slice of the `Measurements` store interface that the frontend code
reads.  `groupData` is `none` when `has_feature(IMAGE, GROUP_NUMBER)` is
false; otherwise it carries the two columns
`m[IMAGE, GROUP_NUMBER, image_numbers]` and
`m[IMAGE, GROUP_INDEX, image_numbers]` (same length as `image_numbers` in a
well-formed store).  `get_groupings tags` is the store's grouping for a tag
list: a sequence of (key-value dictionary in insertion order, member image
numbers) pairs. -/
structure MStore where
  filename : String
  image_numbers : List Nat
  groupData : Option (List Nat × List Nat)
  tagsOrMetadata : List String
  tagsOnly : List String
  get_groupings : List String → List (List (String × String) × List NpInt64)

/-- Python `",".join(strings)`. -/
def joinComma : List String → String
  | [] => ""
  | [x] => x
  | x :: y :: xs => x ++ "," ++ joinComma (y :: xs)

/-- Rendering `"CellProfiler -c -r -p %s -f %d -l %d" % (filename, first, last)`. -/
def render_range_command (filename : String) (p : Nat × Nat) : String :=
  "CellProfiler -c -r -p " ++ filename ++ " -f " ++ toString p.1 ++ " -l " ++ toString p.2

/-- Rendering `",".join(["%s=%s" % (k, v) for k, v in list(grouping[0].items())])`. -/
def group_selector_string (kv : List (String × String)) : String :=
  joinComma (kv.map (fun p => p.1 ++ "=" ++ p.2))

/-- Rendering `"CellProfiler -c -r -p %s -g %s" % (filename, group_string)`. -/
def render_group_command (filename : String) (kv : List (String × String)) : String :=
  "CellProfiler -c -r -p " ++ filename ++ " -g " ++ group_selector_string kv

/-- Model of `numpy.bincount xs`: occurrence counts of each value `0 .. max xs`;
empty input gives an empty array. -/
def bincount (xs : List Nat) : List Nat :=
  match xs with
  | [] => []
  | _ => (List.range (xs.foldl max 0 + 1)).map (fun i => xs.count i)

/-- Model of `numpy.cumsum xs`: running cumulative sums. -/
def cumsum (xs : List Nat) : List Nat :=
  (xs.scanl (· + ·) 0).tail

/-- One elementwise conjunct of the legacy regularity test, for a consecutive
pair of (GroupNumber, GroupIndex) values:
`(group_indexes[i+1] == group_indexes[i] + 1) |
 ((group_indexes[i+1] == 1) & (group_numbers[i+1] == group_numbers[i] + 1))`. -/
def regular_step (a b : Nat × Nat) : Bool :=
  (b.2 == a.2 + 1) || ((b.2 == 1) && (b.1 == a.1 + 1))

/-- Model of `numpy.all` of a predicate over consecutive pairs of a list. -/
def all_adjacent (p : α → α → Bool) : List α → Bool
  | [] => true
  | [_] => true
  | a :: b :: rest => p a b && all_adjacent p (b :: rest)

/-- The legacy partitioner's regularity test over the `GroupNumber` and
`GroupIndex` columns (which have equal length in a well-formed store). -/
def regular_grouping (group_numbers group_indexes : List Nat) : Bool :=
  all_adjacent regular_step (group_numbers.zip group_indexes)

/-- The legacy emission loop over the cumulative group boundaries:
`prev = 0; for off in cumsums: if off == prev: continue;
emit (prev + 1, off); prev = off`. -/
def legacy_ranges (prev : Nat) : List Nat → List (Nat × Nat)
  | [] => []
  | off :: rest =>
      if off == prev then legacy_ranges prev rest
      else (prev + 1, off) :: legacy_ranges off rest

/-- The chunking loop shared by both partitioners:
`for i in range(0, len(image_numbers), n_per_job):
   first = image_numbers[i];
   last = image_numbers[min(i + n_per_job - 1, len(image_numbers) - 1)]`.
Each iteration reads the head of the remaining suffix and the last element of
its first `k` entries, then advances by `k`.  Python's `range` raises
`ValueError` on step `0` and produces an empty range for a negative step; no
claim exercises `k = 0`, and both degenerate cases are collapsed to `[]`. -/
def chunk_job_bounds (k : Nat) (xs : List Nat) : List (Nat × Nat) :=
  if h : xs = [] ∨ k = 0 then []
  else (xs.headD 0, (xs.take k).getLastD 0) :: chunk_job_bounds k (xs.drop k)
termination_by xs.length
decreasing_by
  simp only [not_or] at h
  have hx : 0 < xs.length := List.length_pos.mpr h.1
  simp only [List.length_drop]
  omega

/-- The consecutive chunks of size `k` (last possibly shorter) that the
chunking loop walks over; used to state coverage properties. -/
def chunksOf (k : Nat) (xs : List Nat) : List (List Nat) :=
  if h : xs = [] ∨ k = 0 then []
  else xs.take k :: chunksOf k (xs.drop k)
termination_by xs.length
decreasing_by
  simp only [not_or] at h
  have hx : 0 < xs.length := List.length_pos.mpr h.1
  simp only [List.length_drop]
  omega

/-- The tag-based branch of the legacy partitioner (the `else` arm of
`if m.has_feature(IMAGE, GROUP_NUMBER)` in `get_batch_commands`): resolve
tags via `get_grouping_tags_or_metadata`; if they are exactly
`["ImageNumber"]`, chunk by `n_per_job`, else emit one `-g` command per
grouping bucket. -/
def tag_fallback_commands (m : MStore) (n_per_job : Nat) : List String :=
  let metadata_tags := m.tagsOrMetadata
  if metadata_tags.length == 1 && metadata_tags.getD 0 "" == "ImageNumber" then
    (chunk_job_bounds n_per_job m.image_numbers).map (render_range_command m.filename)
  else
    (m.get_groupings metadata_tags).map (fun grouping =>
      render_group_command m.filename grouping.1)

/-- Embedding of `get_batch_commands(filename, n_per_job)` (legacy partitioner), as the
list of printed command lines.  When the `GroupNumber` feature is present,
ranges are emitted only if some group number differs from 1 AND the
`GroupNumber`/`GroupIndex` sequence is regular; otherwise this branch prints
nothing (there is no fall-through to the tag-based branch, which is the
`else` of the `has_feature` test). -/
def get_batch_commands (m : MStore) (n_per_job : Nat) : List String :=
  match m.groupData with
  | some gd =>
      let group_numbers := gd.1
      let group_indexes := gd.2
      if group_numbers.any (· != 1) && regular_grouping group_numbers group_indexes then
        (legacy_ranges 0 (cumsum (bincount group_numbers))).map
          (render_range_command m.filename)
      else []
  | none => tag_fallback_commands m n_per_job

/-- Embedding of `get_batch_commands_new(filename, n_per_job)` (current-policy
partitioner): tags via `get_grouping_tags_only`; chunk whenever
`n_per_job != 1 or grouping_tags == []`, else one `-g` command per bucket. -/
def get_batch_commands_new (m : MStore) (n_per_job : Nat) : List String :=
  let grouping_tags := m.tagsOnly
  if n_per_job != 1 || grouping_tags == [] then
    (chunk_job_bounds n_per_job m.image_numbers).map (render_range_command m.filename)
  else
    (m.get_groupings grouping_tags).map (fun grouping =>
      render_group_command m.filename grouping.1)

/-! ## Headless run (`run_pipeline_headless`) -/

/-- Python `str.split(sep)` for a one-character separator, on the character
list of the string.  `"".split(sep)` is `[""]`. -/
def pySplit (c : Char) : List Char → List (List Char)
  | [] => [[]]
  | x :: xs =>
    match pySplit c xs with
    | [] => [[]]
    | cur :: rest => if x = c then [] :: cur :: rest else (x :: cur) :: rest

/-- Python `str.isdigit()` (restricted to ASCII digits, which is all the
frontend ever passes): non-empty and all characters are digits. -/
def py_isdigit (s : String) : Bool :=
  !s.isEmpty && s.toList.all Char.isDigit

/-- The value of a list of ASCII digit characters, most significant first
(the semantics of Python `int` on a digit string). -/
def digits_to_nat (ds : List Char) : Nat :=
  ds.foldl (fun a c => 10 * a + (c.toNat - '0'.toNat)) 0

/-- Python `int(s)` on a string that passed `isdigit`; the frontend only
calls it under that guard. -/
def py_int_of_digits (s : String) : Nat :=
  digits_to_nat s.toList

/-- Model of `numpy.arange(a, b)` over naturals: `[a, a+1, ..., b-1]` (empty when
`b ≤ a`). -/
def pyArange (a b : Nat) : List Nat :=
  List.range' a (b - a)

/-- Step 1 of `run_pipeline_headless`, handling of `args.last_image_set`
after `image_set_start` is known.  (The source's `if image_set_start is
None` arm is unreachable: `image_set_start` has always been assigned `1` or
a parsed integer by this point, so the `numpy.arange(image_set_start,
image_set_end + 1)` arm is the one embedded.)  Returns
`(image_set_start, image_set_end, image_set_numbers)`. -/
def resolve_last_bound (image_set_start : Nat) :
    Option String → Except String (Nat × Option Nat × Option (List Nat))
  | some s =>
      if !py_isdigit s then
        .error "The --last-image-set option takes a numeric argument"
      else
        let image_set_end := py_int_of_digits s
        .ok (image_set_start, some image_set_end,
             some (pyArange image_set_start (image_set_end + 1)))
  | none => .ok (image_set_start, none, none)

/-- Step 1 of `run_pipeline_headless`: parse `args.first_image_set` /
`args.last_image_set` (`ValueError` on a non-digit string), defaulting the
start to 1 when absent. -/
def resolve_bounds (first last : Option String) :
    Except String (Nat × Option Nat × Option (List Nat)) :=
  match first with
  | some s =>
      if !py_isdigit s then
        .error "The --first-image-set option takes a numeric argument"
      else resolve_last_bound (py_int_of_digits s) last
  | none => resolve_last_bound 1 last

/-- Python `dict(kvs)` over a list of key/value token lists: raises
`ValueError` unless every element has exactly two components.  The mapping is
kept as the association list in insertion order (no claim involves duplicate
keys, so the last-wins overwrite of `dict` is not observable here). -/
def pyDict : List (List (List Char)) → Except String (List (String × String))
  | [] => .ok []
  | kv :: rest =>
      match kv with
      | [k, v] =>
          match pyDict rest with
          | .error e => .error e
          | .ok d => .ok ((String.mk k, String.mk v) :: d)
      | _ => .error "dictionary update sequence element has wrong length"

/-- Step 3 of `run_pipeline_headless`:
`kvs = [x.split("=") for x in args.groups.split(",")]; groups = dict(kvs)`
when a group selector string is supplied, else `groups = None`. -/
def resolve_groups : Option String → Except String (Option (List (String × String)))
  | none => .ok none
  | some s =>
      let kvs := (pySplit ',' s.toList).map (pySplit '=')
      match pyDict kvs with
      | .error e => .error e
      | .ok d => .ok (some d)

/-- The measurements object produced by the opaque `pipeline.run` call, as
far as outcome derivation reads it: `none` when `pipeline.run` returned
`None`; otherwise the experiment-level `EXIT_STATUS` feature
(`none` when `has_feature(EXPERIMENT, EXIT_STATUS)` is false, else its
text). -/
def RunMeasurements := Option (Option String)

/-- Step 7 of `run_pipeline_headless`: derive `(exit_code, done-file text)`.
With a done-file: a present feature gives its text and exit code
`0 if text == "Complete" else -1`; an absent feature (or `None`
measurements) gives text `"Failure"` and exit code `-1`; the text plus a
newline is written to the done-file.  Without a done-file the code evaluates
`measurements.has_feature(...)` directly, which raises `AttributeError` when
`measurements` is `None`; otherwise exit code is `1` when the feature is
absent and `0` when it is present (its text is not consulted). -/
def derive_exit (done_file : Option String) (measurements : Option (Option String)) :
    Except String (Int × Option String) :=
  match done_file with
  | some _ =>
      match measurements with
      | some (some done_text) =>
          .ok ((if done_text == "Complete" then 0 else -1), some (done_text ++ "\n"))
      | _ => .ok (-1, some ("Failure" ++ "\n"))
  | none =>
      match measurements with
      | none => .error "AttributeError: NoneType has no attribute has_feature"
      | some none => .ok (1, none)
      | some (some _) => .ok (0, none)

/-- The command-line arguments `run_pipeline_headless` reads for the
behaviour under verification. -/
structure HeadlessArgs where
  first_image_set : Option String
  last_image_set : Option String
  groups : Option String
  done_file : Option String
  deriving Repr, DecidableEq

/-- The observable result of a headless run that did not raise. -/
structure HeadlessResult where
  image_set_start : Nat
  image_set_end : Option Nat
  image_set_numbers : Option (List Nat)
  groups : Option (List (String × String))
  exit_code : Int
  done_file_text : Option String
  deriving Repr, DecidableEq

/-- Embedding of `run_pipeline_headless(args)`, with the opaque engine call
`pipeline.run(...)` abstracted by its result `run_result` (pipeline loading,
file-list population and batch-module reconciliation are external
collaborators with no effect on the values verified here).  Steps happen in
source order: bound resolution, then group-selector parsing, then the run,
then outcome derivation. -/
def run_pipeline_headless (a : HeadlessArgs) (run_result : Option (Option String)) :
    Except String HeadlessResult :=
  match resolve_bounds a.first_image_set a.last_image_set with
  | .error e => .error e
  | .ok bounds =>
      match resolve_groups a.groups with
      | .error e => .error e
      | .ok groups =>
          let measurements := run_result
          match derive_exit a.done_file measurements with
          | .error e => .error e
          | .ok outcome =>
              .ok ⟨bounds.1, bounds.2.1, bounds.2.2, groups, outcome.1, outcome.2⟩

/-! ## Grouping inspector (`print_groups`) -/

/-- The JSON values `json.dump` can emit for the inspector's document. -/
inductive JVal where
  | num (n : Int)
  | str (s : String)
  | arr (xs : List JVal)
  | obj (kvs : List (String × JVal))
  deriving Repr

/-- JSON serialization of a group's key/value dictionary. -/
def dump_key_mapping (kv : List (String × String)) : JVal :=
  .obj (kv.map (fun p => (p.1, .str p.2)))

/-- The export structure `print_groups` builds before dumping:
`groupings_export.append((g[0], [int(imgnr) for imgnr in g[1]]))` — the
store-native `np.int64` image numbers are coerced to plain integers. -/
def print_groups_export (m : MStore) : List (List (String × String) × List Int) :=
  (m.get_groupings m.tagsOrMetadata).map (fun g => (g.1, g.2.map NpInt64.val))

/-- JSON serialization of the export structure: an array of 2-element arrays
`[keyMapping, [imageNumber, ...]]`. -/
def dump_groupings (e : List (List (String × String) × List Int)) : JVal :=
  .arr (e.map (fun g => .arr [dump_key_mapping g.1, .arr (g.2.map JVal.num)]))

/-- Embedding of `print_groups(filename)`: the structured document written to standard
output (`json.dump(groupings_export, sys.stdout)`). -/
def print_groups (m : MStore) : JVal :=
  dump_groupings (print_groups_export m)

/-- Structured-document parsing, reading back a list of plain integers;
fails on any non-integer element. -/
def parse_int_list : List JVal → Option (List Int)
  | [] => some []
  | .num n :: rest => (parse_int_list rest).map (n :: ·)
  | _ => none

/-- Structured-document parsing of the entries of a key/value dictionary. -/
def parse_key_mapping_entries : List (String × JVal) → Option (List (String × String))
  | [] => some []
  | (k, .str v) :: rest => (parse_key_mapping_entries rest).map ((k, v) :: ·)
  | _ => none

/-- Structured-document parsing of a key/value dictionary. -/
def parse_key_mapping : JVal → Option (List (String × String))
  | .obj kvs => parse_key_mapping_entries kvs
  | _ => none

/-- Structured-document parsing of one `[keyMapping, [imageNumber, ...]]`
pair. -/
def parse_grouping_entry : JVal → Option (List (String × String) × List Int)
  | .arr [k, .arr ns] =>
      match parse_key_mapping k, parse_int_list ns with
      | some kv, some xs => some (kv, xs)
      | _, _ => none
  | _ => none

/-- Structured-document parsing of a list of grouping entries. -/
def parse_groupings_entries : List JVal → Option (List (List (String × String) × List Int))
  | [] => some []
  | g :: rest =>
      match parse_grouping_entry g, parse_groupings_entries rest with
      | some e, some es => some (e :: es)
      | _, _ => none

/-- Structured-document parsing of the whole inspector document. -/
def parse_groupings_doc : JVal → Option (List (List (String × String) × List Int))
  | .arr gs => parse_groupings_entries gs
  | _ => none

/-- Total image-number count of a parsed/exported document. -/
def total_count (e : List (List (String × String) × List Int)) : Nat :=
  (e.map (fun g => g.2.length)).sum

/-- Total image-number count of a store grouping. -/
def total_count_store (gs : List (List (String × String) × List NpInt64)) : Nat :=
  (gs.map (fun g => g.2.length)).sum

/-! ## `--images-per-batch` handling in `main` -/

/-- Python `str.strip()` on a character list: drop whitespace from both
ends. -/
def py_strip (s : List Char) : List Char :=
  ((s.dropWhile Char.isWhitespace).reverse.dropWhile Char.isWhitespace).reverse

/-- Python `int(s)` on a string: optional surrounding whitespace, an optional
sign, then one or more ASCII digits; anything else raises `ValueError`
(modelled as `none`).  Underscore digit separators are not modelled; no
claim depends on them. -/
def py_int_of_string (s : String) : Option Int :=
  match py_strip s.toList with
  | [] => none
  | '+' :: ds =>
      if ds ≠ [] ∧ ds.all Char.isDigit then some (Int.ofNat (digits_to_nat ds)) else none
  | '-' :: ds =>
      if ds ≠ [] ∧ ds.all Char.isDigit then some (-(Int.ofNat (digits_to_nat ds))) else none
  | ds =>
      if ds.all Char.isDigit then some (Int.ofNat (digits_to_nat ds)) else none

/-- The `--get-batch-commands` arm of `main`:
`try: nr_per_batch = int(args.images_per_batch) except ValueError:`
log a warning and default to 1. -/
def main_images_per_batch (images_per_batch : String) : Int :=
  match py_int_of_string images_per_batch with
  | some n => n
  | none => 1

/-- Embedding of `main`'s invocation of the legacy partitioner with the resolved batch
size (the resolved value is a Python `int`; a negative value would make the
chunking `range` empty, matching `chunk_job_bounds` at `0` via `toNat`). -/
def main_get_batch_commands (m : MStore) (images_per_batch : String) : List String :=
  get_batch_commands m (main_images_per_batch images_per_batch).toNat

/-! ## Concrete inputs used by witnesses and counterexamples -/

/-- A store whose `GroupNumber` feature is present but constantly 1 (a
single group), with tags-or-metadata resolution giving the degenerate
`["ImageNumber"]` tag list. -/
def singletonGroupStore : MStore :=
  { filename := "Batch_data.h5", image_numbers := [1, 2],
    groupData := some ([1, 1], [1, 2]),
    tagsOrMetadata := ["ImageNumber"], tagsOnly := [],
    get_groupings := fun _ => [] }

/-- Headless arguments: only a done-file path is supplied. -/
def doneFileArgs : HeadlessArgs :=
  { first_image_set := none, last_image_set := none, groups := none,
    done_file := some "done.txt" }

/-- Headless arguments: nothing is supplied. -/
def plainArgs : HeadlessArgs :=
  { first_image_set := none, last_image_set := none, groups := none,
    done_file := none }

/-! ## C1 — legacy partitioner on irregular / singleton-group stores -/

/-- C1, counterexample: on a store whose `GroupNumber` feature is present
with a single group, the legacy partitioner emits no commands at all, while
the tag-based fallback path would emit two range commands for the same
store.  The two outputs differ, refuting the claim that the legacy
partitioner falls through to tag-based grouping. -/
theorem C1_counterexample :
    get_batch_commands singletonGroupStore 1 = [] ∧
    tag_fallback_commands singletonGroupStore 1 =
      ["CellProfiler -c -r -p Batch_data.h5 -f 1 -l 1",
       "CellProfiler -c -r -p Batch_data.h5 -f 2 -l 2"] ∧
    get_batch_commands singletonGroupStore 1 ≠ tag_fallback_commands singletonGroupStore 1 := by
  have h2 : tag_fallback_commands singletonGroupStore 1 =
      ["CellProfiler -c -r -p Batch_data.h5 -f 1 -l 1",
       "CellProfiler -c -r -p Batch_data.h5 -f 2 -l 2"] := by
    simp only [tag_fallback_commands, singletonGroupStore]
    rw [chunk_job_bounds, chunk_job_bounds, chunk_job_bounds]
    rfl
  refine ⟨rfl, h2, ?_⟩
  rw [h2]
  exact fun hcontra => List.noConfusion hcontra

/-- C1, amended: whenever the `GroupNumber` feature is present but either
all group numbers equal 1 (a single group) or the `GroupNumber`/`GroupIndex`
sequence is irregular, the legacy partitioner `get_batch_commands` emits no
job descriptors at all; it does not fall through to tag-based grouping. -/
theorem C1_legacy_silent_no_emission (m : MStore) (k : Nat) (gns gis : List Nat)
    (hgd : m.groupData = some (gns, gis))
    (h : gns.all (· == 1) = true ∨ regular_grouping gns gis = false) :
    get_batch_commands m k = [] := by
  simp only [get_batch_commands, hgd]
  rcases h with h | h
  · have hany : gns.any (· != 1) = false := by
      simp only [List.any_eq_false]
      simp only [List.all_eq_true] at h
      intro x hx
      simpa using h x hx
    simp [hany]
  · simp [h]

/-- Witness for `C1_legacy_silent_no_emission` at the singleton-group
store. -/
theorem C1_legacy_silent_no_emission_witness :
    get_batch_commands singletonGroupStore 1 = [] :=
  C1_legacy_silent_no_emission singletonGroupStore 1 [1, 1] [1, 2] rfl
    (Or.inl (by decide))

/-! ## C2 — headless run with no completion feature -/

/-- C2, counterexample: a headless run whose measurements carry no
experiment-level `EXIT_STATUS` feature returns exit code `-1`, not `1`, when
a done-file path was given. -/
theorem C2_counterexample :
    run_pipeline_headless doneFileArgs (some none) =
      .ok { image_set_start := 1, image_set_end := none, image_set_numbers := none,
            groups := none, exit_code := -1, done_file_text := some "Failure\n" } ∧
    (-1 : Int) ≠ 1 :=
  ⟨rfl, by decide⟩

/-- C2, amended: a headless run whose resulting measurements carry no
experiment-level completion feature returns exit code `1` when no done-file
path was given; when a done-file path was given, the exit code is `-1` and
the done-file contains the text `Failure`. -/
theorem C2_missing_feature_outcome (a : HeadlessArgs) (r : HeadlessResult)
    (h : run_pipeline_headless a (some none) = .ok r) :
    (a.done_file = none → r.exit_code = 1 ∧ r.done_file_text = none) ∧
    (∀ p, a.done_file = some p → r.exit_code = -1 ∧ r.done_file_text = some "Failure\n") := by
  rcases hb : resolve_bounds a.first_image_set a.last_image_set with e | b
  · simp only [run_pipeline_headless, hb] at h
    exact Except.noConfusion h
  rcases hg : resolve_groups a.groups with e | g
  · simp only [run_pipeline_headless, hb, hg] at h
    exact Except.noConfusion h
  rcases hd : a.done_file with _ | p
  · simp only [run_pipeline_headless, hb, hg, hd, derive_exit] at h
    cases h
    exact ⟨fun _ => ⟨rfl, rfl⟩, fun p hp => Option.noConfusion hp⟩
  · simp only [run_pipeline_headless, hb, hg, hd, derive_exit] at h
    cases h
    exact ⟨fun hc => Option.noConfusion hc, fun q _ => ⟨rfl, rfl⟩⟩

/-- The result of a headless run with a done-file path and no completion
feature. -/
def failureDoneResult : HeadlessResult :=
  { image_set_start := 1, image_set_end := none, image_set_numbers := none,
    groups := none, exit_code := -1, done_file_text := some "Failure\n" }

/-- Witness for `C2_missing_feature_outcome` at the done-file arguments. -/
theorem C2_missing_feature_outcome_witness :
    run_pipeline_headless doneFileArgs (some none) = .ok failureDoneResult ∧
    failureDoneResult.exit_code = -1 ∧
    failureDoneResult.done_file_text = some "Failure\n" :=
  ⟨rfl, (C2_missing_feature_outcome doneFileArgs failureDoneResult rfl).2 "done.txt" rfl⟩

/-! ## C3 — headless run with a completion feature present -/

/-- C3, counterexample: with the completion feature present but its text
distinct from `"Complete"`, a headless run with no done-file path still
returns exit code `0`, refuting the claimed equivalence `exit code 0 iff
text = "Complete"` independent of done-file configuration. -/
theorem C3_counterexample :
    run_pipeline_headless plainArgs (some (some "Failure")) =
      .ok { image_set_start := 1, image_set_end := none, image_set_numbers := none,
            groups := none, exit_code := 0, done_file_text := none } ∧
    "Failure" ≠ "Complete" :=
  ⟨rfl, by decide⟩

/-- C3, amended: when the resulting measurements carry the completion
feature with text `t`, the exit code is `0` iff `t = "Complete"` (and `-1`
otherwise) only when a done-file path was given; with no done-file path the
exit code is `0` regardless of `t`. -/
theorem C3_feature_present_outcome (a : HeadlessArgs) (r : HeadlessResult) (t : String)
    (h : run_pipeline_headless a (some (some t)) = .ok r) :
    (a.done_file = none → r.exit_code = 0) ∧
    (∀ p, a.done_file = some p →
      r.exit_code = (if t = "Complete" then 0 else -1) ∧
      r.done_file_text = some (t ++ "\n")) := by
  rcases hb : resolve_bounds a.first_image_set a.last_image_set with e | b
  · simp only [run_pipeline_headless, hb] at h
    exact Except.noConfusion h
  rcases hg : resolve_groups a.groups with e | g
  · simp only [run_pipeline_headless, hb, hg] at h
    exact Except.noConfusion h
  rcases hd : a.done_file with _ | p
  · simp only [run_pipeline_headless, hb, hg, hd, derive_exit] at h
    cases h
    exact ⟨fun _ => rfl, fun p hp => Option.noConfusion hp⟩
  · simp only [run_pipeline_headless, hb, hg, hd, derive_exit] at h
    cases h
    refine ⟨fun hc => Option.noConfusion hc, fun q _ => ⟨?_, rfl⟩⟩
    by_cases ht : t = "Complete" <;> simp [ht]

/-- The result of a headless run with no done-file path whose measurements
carry the completion feature. -/
def zeroExitResult : HeadlessResult :=
  { image_set_start := 1, image_set_end := none, image_set_numbers := none,
    groups := none, exit_code := 0, done_file_text := none }

/-- Witness for `C3_feature_present_outcome` with no done-file path and
status text `"Failure"`. -/
theorem C3_feature_present_outcome_witness :
    run_pipeline_headless plainArgs (some (some "Failure")) = .ok zeroExitResult ∧
    zeroExitResult.exit_code = 0 :=
  ⟨rfl, (C3_feature_present_outcome plainArgs zeroExitResult "Failure" rfl).1 rfl⟩

/-! ## C10 — non-integer `--images-per-batch` -/

/-- C10: a non-integer `--images-per-batch` value raises no error; the batch
size silently defaults to 1 and batch-command generation proceeds with that
default. -/
theorem C10_images_per_batch_default (m : MStore) (s : String)
    (h : py_int_of_string s = none) :
    main_images_per_batch s = 1 ∧
    main_get_batch_commands m s = get_batch_commands m 1 := by
  have h1 : main_images_per_batch s = 1 := by
    simp [main_images_per_batch, h]
  exact ⟨h1, by simp [main_get_batch_commands, h1]⟩

/-- Witness for `C10_images_per_batch_default` at the non-integer value
`"3.5"`. -/
theorem C10_images_per_batch_default_witness :
    main_images_per_batch "3.5" = 1 ∧
    main_get_batch_commands singletonGroupStore "3.5" =
      get_batch_commands singletonGroupStore 1 :=
  C10_images_per_batch_default singletonGroupStore "3.5" (by decide)

/-! ## C5 — legacy partitioner on groups of sizes [3, 2, 4] -/

/-- A store with image numbers 1..9 and a regular `GroupNumber`/`GroupIndex`
sequence forming groups of sizes 3, 2 and 4. -/
def threeGroupStore : MStore :=
  { filename := "Batch_data.h5", image_numbers := [1, 2, 3, 4, 5, 6, 7, 8, 9],
    groupData := some ([1, 1, 1, 2, 2, 3, 3, 3, 3], [1, 2, 3, 1, 2, 1, 2, 3, 4]),
    tagsOrMetadata := ["ImageNumber"], tagsOnly := [],
    get_groupings := fun _ => [] }

/-- C5: on a store with image numbers 1..9 whose `GroupNumber` column forms
three groups of sizes 3, 2 and 4 in order (and whose `GroupIndex` column
makes the sequence regular), the legacy partitioner emits exactly three
range commands with bounds [1,3], [4,5] and [6,9], in that order, each
rendered with `-f`/`-l` flags. -/
theorem C5_legacy_three_ranges (m : MStore) (k : Nat) (gis : List Nat)
    (him : m.image_numbers = [1, 2, 3, 4, 5, 6, 7, 8, 9])
    (hgd : m.groupData = some ([1, 1, 1, 2, 2, 3, 3, 3, 3], gis))
    (hreg : regular_grouping [1, 1, 1, 2, 2, 3, 3, 3, 3] gis = true) :
    get_batch_commands m k =
      ["CellProfiler -c -r -p " ++ m.filename ++ " -f 1 -l 3",
       "CellProfiler -c -r -p " ++ m.filename ++ " -f 4 -l 5",
       "CellProfiler -c -r -p " ++ m.filename ++ " -f 6 -l 9"] := by
  have hany : ([1, 1, 1, 2, 2, 3, 3, 3, 3] : List Nat).any (· != 1) = true := by decide
  simp only [get_batch_commands, hgd, hreg, hany, Bool.and_self, if_true]
  show ([(1, 3), (4, 5), (6, 9)] : List (Nat × Nat)).map (render_range_command m.filename) = _
  simp only [List.map, render_range_command, String.append_assoc]
  rfl

/-- Witness for `C5_legacy_three_ranges` at the concrete three-group
store. -/
theorem C5_legacy_three_ranges_witness :
    get_batch_commands threeGroupStore 1 =
      ["CellProfiler -c -r -p " ++ threeGroupStore.filename ++ " -f 1 -l 3",
       "CellProfiler -c -r -p " ++ threeGroupStore.filename ++ " -f 4 -l 5",
       "CellProfiler -c -r -p " ++ threeGroupStore.filename ++ " -f 6 -l 9"] :=
  C5_legacy_three_ranges threeGroupStore 1 [1, 2, 3, 1, 2, 1, 2, 3, 4] rfl rfl
    (by decide)

/-! ## C6 — current partitioner over two (Row, Col) buckets -/

/-- C6: with tags-only resolution yielding `["Row", "Col"]` and exactly two
(Row, Col) buckets, the current partitioner at batch size 1 emits exactly
two group commands whose `-g` selector strings reproduce the buckets'
key=value pairs verbatim, comma-joined, in tag order. -/
theorem C6_group_selector_commands (m : MStore) (v1 w1 v2 w2 : String)
    (ns1 ns2 : List NpInt64)
    (htags : m.tagsOnly = ["Row", "Col"])
    (hg : m.get_groupings ["Row", "Col"] =
      [([("Row", v1), ("Col", w1)], ns1), ([("Row", v2), ("Col", w2)], ns2)]) :
    get_batch_commands_new m 1 =
      ["CellProfiler -c -r -p " ++ m.filename ++ " -g Row=" ++ v1 ++ ",Col=" ++ w1,
       "CellProfiler -c -r -p " ++ m.filename ++ " -g Row=" ++ v2 ++ ",Col=" ++ w2] ∧
    (get_batch_commands_new m 1).length = 2 := by
  have hcmds : get_batch_commands_new m 1 =
      ["CellProfiler -c -r -p " ++ m.filename ++ " -g Row=" ++ v1 ++ ",Col=" ++ w1,
       "CellProfiler -c -r -p " ++ m.filename ++ " -g Row=" ++ v2 ++ ",Col=" ++ w2] := by
    simp only [get_batch_commands_new, htags, hg]
    simp only [List.map, render_group_command, group_selector_string, joinComma,
      String.append_assoc]
    rfl
  exact ⟨hcmds, by rw [hcmds]; rfl⟩

/-- A store with two (Row, Col) buckets, used to witness
`C6_group_selector_commands`. -/
def rowColStore : MStore :=
  { filename := "Batch_data.h5", image_numbers := [1, 2, 3, 4],
    groupData := none,
    tagsOrMetadata := ["Row", "Col"], tagsOnly := ["Row", "Col"],
    get_groupings := fun _ =>
      [([("Row", "H"), ("Col", "01")], [⟨1⟩, ⟨2⟩]),
       ([("Row", "H"), ("Col", "02")], [⟨3⟩, ⟨4⟩])] }

/-- Witness for `C6_group_selector_commands` at the two-bucket store. -/
theorem C6_group_selector_commands_witness :
    get_batch_commands_new rowColStore 1 =
      ["CellProfiler -c -r -p " ++ rowColStore.filename ++ " -g Row=" ++ "H" ++ ",Col=" ++ "01",
       "CellProfiler -c -r -p " ++ rowColStore.filename ++ " -g Row=" ++ "H" ++ ",Col=" ++ "02"] ∧
    (get_batch_commands_new rowColStore 1).length = 2 :=
  C6_group_selector_commands rowColStore "H" "01" "H" "02" [⟨1⟩, ⟨2⟩] [⟨3⟩, ⟨4⟩]
    rfl rfl

/-! ## C8 — headless bound resolution -/

/-- C8: bound resolution raises a fatal error exactly when a supplied
`first_image_set` or `last_image_set` value is non-numeric; when it does not
raise, a missing first bound with an explicit last bound resolves to the
numbered range `[1, last]`, and an explicit first bound with a missing last
bound resolves to an open-ended range starting at that first image number
(no error). -/
theorem C8_bound_resolution (first last : Option String) :
    ((∃ e, resolve_bounds first last = .error e) ↔
      ((∃ s, first = some s ∧ py_isdigit s = false) ∨
       (∃ s, last = some s ∧ py_isdigit s = false))) ∧
    (∀ s, first = none → last = some s → py_isdigit s = true →
      resolve_bounds first last =
        .ok (1, some (py_int_of_digits s), some (List.range' 1 (py_int_of_digits s)))) ∧
    (∀ s, first = some s → py_isdigit s = true → last = none →
      resolve_bounds first last = .ok (py_int_of_digits s, none, none)) := by
  refine ⟨⟨?_, ?_⟩, ?_, ?_⟩
  · rintro ⟨e, he⟩
    rcases first with _ | s
    · rcases last with _ | t
      · simp [resolve_bounds, resolve_last_bound] at he
      · by_cases ht : py_isdigit t
        · simp [resolve_bounds, resolve_last_bound, ht] at he
        · exact Or.inr ⟨t, rfl, by simpa using ht⟩
    · by_cases hs : py_isdigit s
      · rcases last with _ | t
        · simp [resolve_bounds, resolve_last_bound, hs] at he
        · by_cases ht : py_isdigit t
          · simp [resolve_bounds, resolve_last_bound, hs, ht] at he
          · exact Or.inr ⟨t, rfl, by simpa using ht⟩
      · exact Or.inl ⟨s, rfl, by simpa using hs⟩
  · rintro (⟨s, rfl, hs⟩ | ⟨t, rfl, ht⟩)
    · exact ⟨"The --first-image-set option takes a numeric argument",
        by simp [resolve_bounds, hs]⟩
    · rcases first with _ | s
      · exact ⟨"The --last-image-set option takes a numeric argument",
          by simp [resolve_bounds, resolve_last_bound, ht]⟩
      · by_cases hs : py_isdigit s
        · exact ⟨"The --last-image-set option takes a numeric argument",
            by simp [resolve_bounds, resolve_last_bound, hs, ht]⟩
        · exact ⟨"The --first-image-set option takes a numeric argument",
            by simp [resolve_bounds, hs]⟩
  · rintro s rfl rfl hs
    have harange : pyArange 1 (py_int_of_digits s + 1) = List.range' 1 (py_int_of_digits s) := by
      simp [pyArange]
    simp [resolve_bounds, resolve_last_bound, hs, harange]
  · rintro s rfl hs rfl
    simp [resolve_bounds, resolve_last_bound, hs]

/-- Witness for `C8_bound_resolution`: `first=5, last=None` resolves to an
open-ended range starting at 5, and `first=None, last=3` resolves to the
numbered range `[1, 3]`. -/
theorem C8_bound_resolution_witness :
    resolve_bounds (some "5") none = .ok (5, none, none) ∧
    resolve_bounds none (some "3") = .ok (1, some 3, some [1, 2, 3]) := by
  constructor
  · have h := (C8_bound_resolution (some "5") none).2.2 "5" rfl (by decide) rfl
    simpa using h
  · have h := (C8_bound_resolution none (some "3")).2.1 "3" rfl rfl (by decide)
    simpa using h

/-! ## C7 — group-selector parsing -/

/-- Splitting always yields at least one token. -/
theorem pySplit_ne_nil (c : Char) (l : List Char) : pySplit c l ≠ [] := by
  induction l with
  | nil => simp [pySplit]
  | cons x xs ih =>
    simp only [pySplit]
    rcases hps : pySplit c xs with _ | ⟨cur, rest⟩
    · exact absurd hps ih
    · by_cases hx : x = c <;> simp [hx]

/-- Splitting a separator-free list yields the list itself as the only
token. -/
theorem pySplit_no_sep (c : Char) (l : List Char) (h : c ∉ l) :
    pySplit c l = [l] := by
  induction l with
  | nil => rfl
  | cons x xs ih =>
    have hx : ¬ x = c := by rintro rfl; exact h (List.mem_cons_self _ _)
    have hxs : c ∉ xs := fun hc => h (List.mem_cons_of_mem _ hc)
    simp only [pySplit, ih hxs]
    simp [hx]

/-- Splitting a list that starts with the separator produces a leading empty
token. -/
theorem pySplit_cons_sep (c : Char) (l : List Char) :
    pySplit c (c :: l) = [] :: pySplit c l := by
  simp only [pySplit]
  rcases hps : pySplit c l with _ | ⟨cur, rest⟩
  · exact absurd hps (pySplit_ne_nil c l)
  · simp

/-- Splitting past a separator-free prefix peels that prefix off as the
first token. -/
theorem pySplit_append_sep (c : Char) (a b : List Char) (ha : c ∉ a) :
    pySplit c (a ++ c :: b) = a :: pySplit c b := by
  induction a with
  | nil => simpa using pySplit_cons_sep c b
  | cons x xs ih =>
    have hx : ¬ x = c := by rintro rfl; exact ha (List.mem_cons_self _ _)
    have hxs : c ∉ xs := fun hc => ha (List.mem_cons_of_mem _ hc)
    simp only [List.cons_append, pySplit, List.append_eq]
    rw [ih hxs]
    simp [hx]

/-- The characters of a rendered `key=value` token. -/
theorem toList_kv_token (p : String × String) :
    (p.1 ++ "=" ++ p.2).toList = p.1.toList ++ '=' :: p.2.toList := by
  show ((p.1 ++ "=") ++ p.2).data = p.1.data ++ '=' :: p.2.data
  simp only [String.data_append, List.append_assoc]
  rfl

/-- The characters of a comma-joined rendering, with at least two pairs. -/
theorem toList_joinComma_cons (s : String) (t : String) (rest : List String) :
    (joinComma (s :: t :: rest)).toList = s.toList ++ ',' :: (joinComma (t :: rest)).toList := by
  show ((s ++ ",") ++ joinComma (t :: rest)).data = s.data ++ ',' :: (joinComma (t :: rest)).data
  simp only [String.data_append, List.append_assoc]
  rfl

/-- Splitting the comma-joined rendering of comma-free pairs recovers one
`key=value` token per pair. -/
theorem pySplit_joinComma (ps : List (String × String)) (hne : ps ≠ [])
    (h : ∀ p ∈ ps, ',' ∉ p.1.toList ∧ ',' ∉ p.2.toList) :
    pySplit ',' ((joinComma (ps.map (fun p => p.1 ++ "=" ++ p.2))).toList) =
      ps.map (fun p => p.1.toList ++ '=' :: p.2.toList) := by
  induction ps with
  | nil => exact absurd rfl hne
  | cons p rest ih =>
    have hp := h p (List.mem_cons_self _ _)
    have htok : ',' ∉ p.1.toList ++ '=' :: p.2.toList := by
      intro hc
      rcases List.mem_append.mp hc with hc | hc
      · exact hp.1 hc
      · rcases List.mem_cons.mp hc with hc | hc
        · exact absurd hc (by decide)
        · exact hp.2 hc
    cases rest with
    | nil =>
      show pySplit ',' ((p.1 ++ "=" ++ p.2).toList) = [p.1.toList ++ '=' :: p.2.toList]
      rw [toList_kv_token]
      exact pySplit_no_sep ',' _ htok
    | cons q rest2 =>
      have hrest : ∀ r ∈ q :: rest2, ',' ∉ r.1.toList ∧ ',' ∉ r.2.toList :=
        fun r hr => h r (List.mem_cons_of_mem _ hr)
      have ih2 := ih (by simp) hrest
      simp only [List.map] at ih2 ⊢
      rw [toList_joinComma_cons, toList_kv_token, pySplit_append_sep ',' _ _ htok, ih2]

/-- Splitting a `key=value` token at `=` gives exactly the key and the
value, when neither contains `=`. -/
theorem pySplit_eq_token (p : String × String)
    (h1 : '=' ∉ p.1.toList) (h2 : '=' ∉ p.2.toList) :
    pySplit '=' (p.1.toList ++ '=' :: p.2.toList) = [p.1.toList, p.2.toList] := by
  rw [pySplit_append_sep '=' _ _ h1, pySplit_no_sep '=' _ h2]

/-- Python `dict` over well-formed 2-element token lists succeeds and rebuilds the
pairs. -/
theorem pyDict_of_pairs (ps : List (String × String)) :
    pyDict (ps.map (fun p => [p.1.toList, p.2.toList])) = .ok ps := by
  induction ps with
  | nil => rfl
  | cons p rest ih =>
    simp only [List.map, pyDict, ih]
    rfl

/-- Python `dict` raises when any token list does not have exactly two elements. -/
theorem pyDict_error_of_length (kvs : List (List (List Char))) (kv : List (List Char))
    (hmem : kv ∈ kvs) (hlen : kv.length ≠ 2) :
    ∃ e, pyDict kvs = .error e := by
  induction kvs with
  | nil => exact absurd hmem (List.not_mem_nil _)
  | cons hd rest ih =>
    rcases List.mem_cons.mp hmem with rfl | hmem2
    · rcases kv with _ | ⟨k, _ | ⟨v, _ | _⟩⟩
      · exact ⟨_, rfl⟩
      · exact ⟨_, rfl⟩
      · exact absurd rfl hlen
      · exact ⟨_, rfl⟩
    · rcases hd with _ | ⟨k, _ | ⟨v, _ | _⟩⟩
      · exact ⟨_, rfl⟩
      · exact ⟨_, rfl⟩
      · obtain ⟨e, he⟩ := ih hmem2
        exact ⟨e, by simp only [pyDict, he]⟩
      · exact ⟨_, rfl⟩

/-- C7: group-selector parsing maps every well-formed
`key1=value1,key2=value2,...` string to the corresponding key-to-value
mapping, and every string with a comma-separated token lacking `=` raises a
fatal error — independently of the engine's run result, i.e. before the
pipeline run begins. -/
theorem C7_group_selector_parsing :
    (∀ ps : List (String × String), ps ≠ [] →
      (∀ p ∈ ps, (',' ∉ p.1.toList ∧ ',' ∉ p.2.toList) ∧
                 ('=' ∉ p.1.toList ∧ '=' ∉ p.2.toList)) →
      resolve_groups (some (joinComma (ps.map (fun p => p.1 ++ "=" ++ p.2)))) =
        .ok (some ps)) ∧
    (∀ (s : String) (t : List Char), t ∈ pySplit ',' s.toList → '=' ∉ t →
      (∃ e, resolve_groups (some s) = .error e) ∧
      (∀ (a : HeadlessArgs) (run_result : Option (Option String)),
        a.groups = some s →
        ∃ e, run_pipeline_headless a run_result = .error e)) := by
  constructor
  · intro ps hne h
    have hsplit := pySplit_joinComma ps hne (fun p hp => (h p hp).1)
    have hmap : (pySplit ',' ((joinComma (ps.map (fun p => p.1 ++ "=" ++ p.2))).toList)).map
        (pySplit '=') = ps.map (fun p => [p.1.toList, p.2.toList]) := by
      rw [hsplit, List.map_map]
      refine List.map_congr_left ?_
      intro p hp
      exact pySplit_eq_token p (h p hp).2.1 (h p hp).2.2
    have hps : ∀ q : String, String.mk q.toList = q := fun q => rfl
    simp only [resolve_groups, hmap, pyDict_of_pairs]
  · intro s t hmem hnoeq
    have htok : pySplit '=' t = [t] := pySplit_no_sep '=' t hnoeq
    have hbad : [t] ∈ (pySplit ',' s.toList).map (pySplit '=') := by
      rw [← htok]
      exact List.mem_map_of_mem _ hmem
    obtain ⟨e, he⟩ := pyDict_error_of_length _ [t] hbad (by simp)
    have hrg : resolve_groups (some s) = .error e := by
      simp only [resolve_groups, he]
    refine ⟨⟨e, hrg⟩, ?_⟩
    intro a run_result hgroups
    rcases hb : resolve_bounds a.first_image_set a.last_image_set with eb | b
    · exact ⟨eb, by simp only [run_pipeline_headless, hb]⟩
    · exact ⟨e, by simp only [run_pipeline_headless, hb, hgroups, hrg]⟩

/-- Headless arguments carrying the malformed group selector
`"ROW=H,BAD"`. -/
def badGroupArgs : HeadlessArgs :=
  { first_image_set := none, last_image_set := none,
    groups := some "ROW=H,BAD", done_file := none }

/-- Witness for `C7_group_selector_parsing`: `"ROW=H,COL=01"` parses to the
mapping `[("ROW", "H"), ("COL", "01")]`, and `"ROW=H,BAD"` makes both the
parser and the whole headless run fail. -/
theorem C7_group_selector_parsing_witness :
    resolve_groups (some "ROW=H,COL=01") = .ok (some [("ROW", "H"), ("COL", "01")]) ∧
    resolve_groups (some "ROW=H,BAD") =
      .error "dictionary update sequence element has wrong length" ∧
    run_pipeline_headless badGroupArgs (some none) =
      .error "dictionary update sequence element has wrong length" := by
  obtain ⟨e1, he1⟩ :=
    (C7_group_selector_parsing.2 "ROW=H,BAD" "BAD".toList (by decide) (by decide)).1
  refine ⟨?_, rfl, rfl⟩
  exact C7_group_selector_parsing.1 [("ROW", "H"), ("COL", "01")] (by simp) (by decide)

/-! ## C9 — inspector round trip -/

/-- Parsing a dumped list of plain integers succeeds and recovers it. -/
theorem parse_int_list_map (xs : List Int) :
    parse_int_list (xs.map JVal.num) = some xs := by
  induction xs with
  | nil => rfl
  | cons x rest ih => simp [parse_int_list, ih]

/-- Parsing a dumped key/value dictionary succeeds and recovers it. -/
theorem parse_key_mapping_dump (kv : List (String × String)) :
    parse_key_mapping (dump_key_mapping kv) = some kv := by
  show parse_key_mapping_entries (kv.map (fun p => (p.1, .str p.2))) = some kv
  induction kv with
  | nil => rfl
  | cons p rest ih => simp [parse_key_mapping_entries, ih]

/-- Parsing a dumped grouping document succeeds and recovers the export
structure. -/
theorem parse_dump_groupings (e : List (List (String × String) × List Int)) :
    parse_groupings_doc (dump_groupings e) = some e := by
  show parse_groupings_entries
      (e.map (fun g => .arr [dump_key_mapping g.1, .arr (g.2.map JVal.num)])) = some e
  induction e with
  | nil => rfl
  | cons g rest ih =>
    simp [parse_groupings_entries, parse_grouping_entry, parse_key_mapping_dump,
      parse_int_list_map, ih]

/-- C9: the inspector's serialized document, parsed back, yields the same
number of buckets and the same total count of image numbers as the store's
grouping, and every image number in the document is a plain integer
(`JVal.num`), not the store's native numeric type. -/
theorem C9_inspector_roundtrip (m : MStore) :
    parse_groupings_doc (print_groups m) = some (print_groups_export m) ∧
    (print_groups_export m).length = (m.get_groupings m.tagsOrMetadata).length ∧
    total_count (print_groups_export m) =
      total_count_store (m.get_groupings m.tagsOrMetadata) ∧
    (∃ gs, print_groups m = JVal.arr gs ∧
      ∀ g ∈ gs, ∃ (kv : List (String × String)) (ns : List Int),
        g = JVal.arr [dump_key_mapping kv, JVal.arr (ns.map JVal.num)]) := by
  refine ⟨parse_dump_groupings _, ?_, ?_, ?_⟩
  · simp [print_groups_export]
  · simp [total_count, total_count_store, print_groups_export,
      Function.comp_def, List.length_map]
  · have hdoc : print_groups m = JVal.arr ((print_groups_export m).map
        (fun g => JVal.arr [dump_key_mapping g.1, JVal.arr (g.2.map JVal.num)])) := rfl
    refine ⟨_, hdoc, ?_⟩
    intro g hg
    obtain ⟨q, _, rfl⟩ := List.mem_map.mp hg
    exact ⟨q.1, q.2, rfl⟩

/-! ## C4 — current-policy chunking -/

theorem chunksOf_nil (k : Nat) : chunksOf k [] = [] := by
  rw [chunksOf]
  simp

theorem chunksOf_ne_nil_arg (k : Nat) (xs : List Nat) (h : chunksOf k xs ≠ []) :
    xs ≠ [] := by
  intro hx
  subst hx
  exact h (chunksOf_nil k)

/-- The chunks flatten back to the original list: every element is covered
exactly once, in order, without overlap. -/
theorem chunksOf_join (k : Nat) (hk : k ≠ 0) (xs : List Nat) :
    (chunksOf k xs).flatten = xs := by
  induction xs using chunksOf.induct k with
  | case1 xs h =>
    rcases h with rfl | h
    · simp [chunksOf_nil]
    · exact absurd h hk
  | case2 xs h ih =>
    rw [chunksOf, dif_neg h]
    simp only [List.flatten_cons]
    rw [ih]
    exact List.take_append_drop k xs

/-- There are exactly `ceil (length / k)` chunks. -/
theorem chunksOf_length (k : Nat) (hk : k ≠ 0) (xs : List Nat) :
    (chunksOf k xs).length = (xs.length + k - 1) / k := by
  induction xs using chunksOf.induct k with
  | case1 xs h =>
    rcases h with rfl | h
    · rw [chunksOf_nil]
      simp only [List.length_nil]
      rw [Nat.div_eq_of_lt (by omega)]
    · exact absurd h hk
  | case2 xs h ih =>
    rw [chunksOf, dif_neg h]
    push_neg at h
    have hlen : 1 ≤ xs.length := List.length_pos.mpr h.1
    simp only [List.length_cons]
    rw [ih]
    simp only [List.length_drop]
    have h1 : xs.length + k - 1 = (xs.length - 1) + k := by omega
    rw [h1, Nat.add_div_right _ (Nat.pos_of_ne_zero hk)]
    have h2 : (xs.length - k + k - 1) / k = (xs.length - 1) / k := by
      rcases le_or_lt k xs.length with hkn | hkn
      · have e : xs.length - k + k - 1 = xs.length - 1 := by omega
        rw [e]
      · have e : xs.length - k + k - 1 = k - 1 := by omega
        rw [e, Nat.div_eq_of_lt (by omega), Nat.div_eq_of_lt (by omega)]
    omega

/-- Every chunk is non-empty and no longer than `k`. -/
theorem chunksOf_mem_size (k : Nat) (hk : k ≠ 0) (xs : List Nat) :
    ∀ c ∈ chunksOf k xs, c ≠ [] ∧ c.length ≤ k := by
  induction xs using chunksOf.induct k with
  | case1 xs h =>
    rcases h with rfl | h
    · simp [chunksOf_nil]
    · exact absurd h hk
  | case2 xs h ih =>
    rw [chunksOf, dif_neg h]
    push_neg at h
    intro c hc
    rcases List.mem_cons.mp hc with rfl | hc2
    · refine ⟨?_, ?_⟩
      · simp only [ne_eq, List.take_eq_nil_iff]
        push_neg
        exact ⟨hk, h.1⟩
      · simp only [List.length_take]
        exact Nat.min_le_left _ _
    · exact ih c hc2

/-- Every chunk but the last has length exactly `k`. -/
theorem chunksOf_dropLast_size (k : Nat) (hk : k ≠ 0) (xs : List Nat) :
    ∀ c ∈ (chunksOf k xs).dropLast, c.length = k := by
  induction xs using chunksOf.induct k with
  | case1 xs h =>
    rcases h with rfl | h
    · simp [chunksOf_nil]
    · exact absurd h hk
  | case2 xs h ih =>
    rw [chunksOf, dif_neg h]
    rcases hrest : chunksOf k (xs.drop k) with _ | ⟨c0, cs⟩
    · simp [hrest]
    · have hd : xs.drop k ≠ [] :=
        chunksOf_ne_nil_arg k _ (by rw [hrest]; exact List.cons_ne_nil c0 cs)
      have hklen : k < xs.length := by
        have hpos : 0 < (xs.drop k).length := List.length_pos.mpr hd
        simp only [List.length_drop] at hpos
        omega
      intro c hc
      rw [hrest] at ih
      simp only [List.dropLast_cons₂, List.mem_cons] at hc
      rcases hc with rfl | hc2
      · simp only [List.length_take]
        omega
      · exact ih c (by simpa using hc2)

/-- The chunking loop emits, for each chunk, the pair of its first and last
elements. -/
theorem chunk_job_bounds_eq_chunksOf (k : Nat) (xs : List Nat) :
    chunk_job_bounds k xs =
      (chunksOf k xs).map (fun c => (c.headD 0, c.getLastD 0)) := by
  induction xs using chunk_job_bounds.induct k with
  | case1 xs h =>
    rw [chunk_job_bounds, dif_pos h, chunksOf, dif_pos h]
    rfl
  | case2 xs h ih =>
    rw [chunk_job_bounds, dif_neg h, chunksOf, dif_neg h]
    simp only [List.map_cons]
    have hhead : (xs.take k).headD 0 = xs.headD 0 := by
      push_neg at h
      rcases xs with _ | ⟨a, t⟩
      · exact absurd rfl h.1
      · rcases k with _ | k2
        · exact absurd rfl h.2
        · simp [List.take]
    rw [ih, hhead]

/-- The chunking branch of the current-policy partitioner. -/
theorem get_batch_commands_new_chunk_branch (m : MStore) (k : Nat)
    (hbr : k ≠ 1 ∨ m.tagsOnly = []) :
    get_batch_commands_new m k =
      (chunk_job_bounds k m.image_numbers).map (render_range_command m.filename) := by
  unfold get_batch_commands_new
  rcases hbr with h | h
  · have hb : (k != 1) = true := by simpa using h
    simp [hb]
  · simp [h]

/-- C4: when the current-policy partitioner takes the chunking branch
(batch size not 1, or no grouping tags), it emits one range command per
consecutive chunk of size `k` (first/last of the chunk), in exactly
`ceil (N / k)` descriptors; the chunks flatten back to the (duplicate-free)
image-number sequence, each chunk is non-empty and at most `k` long, and
every chunk except possibly the last has length exactly `k`. -/
theorem C4_current_policy_chunking (m : MStore) (k : Nat) (hk : 1 ≤ k)
    (hbr : k ≠ 1 ∨ m.tagsOnly = [])
    (hmono : List.Chain' (· < ·) m.image_numbers) :
    get_batch_commands_new m k =
      (chunksOf k m.image_numbers).map
        (fun c => render_range_command m.filename (c.headD 0, c.getLastD 0)) ∧
    (get_batch_commands_new m k).length = (m.image_numbers.length + k - 1) / k ∧
    (chunksOf k m.image_numbers).flatten = m.image_numbers ∧
    m.image_numbers.Nodup ∧
    (∀ c ∈ chunksOf k m.image_numbers, c ≠ [] ∧ c.length ≤ k) ∧
    (∀ c ∈ (chunksOf k m.image_numbers).dropLast, c.length = k) := by
  have hk0 : k ≠ 0 := by omega
  have hbranch := get_batch_commands_new_chunk_branch m k hbr
  refine ⟨?_, ?_, chunksOf_join k hk0 _, ?_, chunksOf_mem_size k hk0 _,
    chunksOf_dropLast_size k hk0 _⟩
  · rw [hbranch, chunk_job_bounds_eq_chunksOf, List.map_map]
    rfl
  · rw [hbranch, List.length_map, chunk_job_bounds_eq_chunksOf, List.length_map,
      chunksOf_length k hk0]
  · exact ((List.chain'_iff_pairwise.mp hmono).imp fun h => Nat.ne_of_lt h)

/-- A store with no grouping tags and image numbers 1..9, used to witness
`C4_current_policy_chunking` at batch size 4. -/
def chunkStore : MStore :=
  { filename := "Batch_data.h5", image_numbers := [1, 2, 3, 4, 5, 6, 7, 8, 9],
    groupData := none, tagsOrMetadata := ["ImageNumber"], tagsOnly := [],
    get_groupings := fun _ => [] }

/-- Witness for `C4_current_policy_chunking` at the 9-image store with
batch size 4. -/
theorem C4_current_policy_chunking_witness :
    get_batch_commands_new chunkStore 4 =
      ["CellProfiler -c -r -p Batch_data.h5 -f 1 -l 4",
       "CellProfiler -c -r -p Batch_data.h5 -f 5 -l 8",
       "CellProfiler -c -r -p Batch_data.h5 -f 9 -l 9"] ∧
    (get_batch_commands_new chunkStore 4).length = 3 ∧
    (chunksOf 4 chunkStore.image_numbers).flatten = chunkStore.image_numbers ∧
    chunkStore.image_numbers.Nodup := by
  have h := C4_current_policy_chunking chunkStore 4 (by decide) (Or.inr rfl)
    (by simp [chunkStore, List.chain'_cons])
  refine ⟨?_, ?_, h.2.2.1, h.2.2.2.1⟩
  · rw [h.1]
    show (chunksOf 4 [1, 2, 3, 4, 5, 6, 7, 8, 9]).map _ = _
    rw [chunksOf, chunksOf, chunksOf, chunksOf]
    simp only [List.map]
    rfl
  · rw [h.2.1]
    rfl

end CPFrontend
